import Mathlib

/-!
# Redis subscription run loop (`pkg/backend/impl/redis/subscription.go`)

A shallow embedding of `subscription.start` and `subscription.ack`.

The worker goroutine of `start` is embedded as a function from the things the
environment hands to it (what the poll of `exitLoop` sees at the top of every
iteration and what `XReadGroup` returns) to the list of actions it performs on
its collaborators (reads, log entries, acknowledgements, goroutines started,
the closing of `stoppedCh`), together with the cursor `id`.

Each `go func() { ... }()` started for a decoded event is embedded separately
(`goroutine`); the loop records that it was started (`Action.go`).  A Go panic
(failed type assertion) is recorded explicitly, since it aborts the program.
-/

namespace Redis

/-! ## Data model -/

/-- A Go `interface{}` value as found in `XMessage.Values` and in the
extensions of an event: either a `string`, or a value of some other dynamic
type (for which the assertion `v.(string)` panics). -/
inductive Value where
  | str (s : String)
  | other (tag : Nat)
  deriving DecidableEq, Repr

/-- The part of `cloudevents.Event` the subscription looks at: the identifier
returned by `ID()`, the extension attributes, and the rest of the document. -/
structure Event where
  ID : String
  Extensions : List (String × Value)
  Data : String
  deriving DecidableEq, Repr

/-- The zero value `&cloudevents.Event{}`: `ID()` is the empty string. -/
def Event.zero : Event := ⟨"", [], ""⟩

/-- Attribute lookup `ce.Extensions()[name]`. -/
def Event.Extension (ce : Event) (name : String) : Option Value :=
  ce.Extensions.lookup name

/-- Attribute update `ce.Context.SetExtension(name, v)`: the attribute `name` is
bound to `v`, the other attributes are kept. -/
def Event.SetExtension (ce : Event) (name : String) (v : Value) : Event :=
  { ce with Extensions := (name, v) :: ce.Extensions.filter (fun kv => kv.1 != name) }

/-- A `goredis.XMessage`: position identifier and payload.  The payload is a Go
map; it is kept as the list of its entries in the order the `range` loop
visits them. -/
structure XMessage where
  ID : String
  Values : List (String × Value)
  deriving DecidableEq, Repr

/-- A `goredis.XStream`. -/
structure XStream where
  Stream : String
  Messages : List XMessage
  deriving DecidableEq, Repr

/-- The pair `(streams, err)` returned by `XReadGroup(...).Result()`; `err` holds
the text `err.Error()` when the error is not nil. -/
structure ReadResult where
  streams : List XStream
  err : Option String
  deriving DecidableEq, Repr

/-- Severity of a log entry (`logger.Debug`, `logger.Warn`, `logger.Error`). -/
inductive Level where
  | debug
  | warn
  | error
  deriving DecidableEq, Repr

/-- What the subscription does to its collaborators. -/
inductive Action where
  /-- Call of `s.client.XReadGroup` with `Streams: {s.stream, start}`. -/
  | xreadgroup (start : String)
  /-- A log entry. -/
  | log (level : Level) (text : String)
  /-- Call of `s.ack(id)`, that is `XAck(ctx, stream, group, id)`. -/
  | ack (id : String)
  /-- Start of the goroutine that dispatches `ce` and then acknowledges. -/
  | go (ce : Event)
  /-- Call of the caller's callback `s.ccbDispatch(ce)`. -/
  | dispatch (ce : Event)
  /-- The statement `close(s.stoppedCh)`. -/
  | closeStopped
  deriving DecidableEq, Repr

/-- Identifiers passed to `ack`, in order. -/
def acks : List Action → List String :=
  List.filterMap (fun a => match a with
    | .ack id => some id
    | _ => none)

/-- Events for which a dispatch goroutine was started, in order. -/
def spawned : List Action → List Event :=
  List.filterMap (fun a => match a with
    | .go ce => some ce
    | _ => none)

/-- Events passed to the dispatch callback, in order. -/
def dispatched : List Action → List Event :=
  List.filterMap (fun a => match a with
    | .dispatch ce => some ce
    | _ => none)

/-- Start identifiers of the group reads, in order. -/
def readStarts : List Action → List String :=
  List.filterMap (fun a => match a with
    | .xreadgroup start => some start
    | _ => none)

/-- Log entries, in order. -/
def logEntries : List Action → List (Level × String) :=
  List.filterMap (fun a => match a with
    | .log level text => some (level, text)
    | _ => none)

/-! ## The code -/

/-- Go's `strings.HasSuffix(s, suffix)`:
`len(s) >= len(suffix) && s[len(s)-len(suffix):] == suffix`. -/
def HasSuffix (s suffix : String) : Bool :=
  decide (s.length ≥ suffix.length) && (s.data.drop (s.length - suffix.length) == suffix.data)

/-- What a call `ce.UnmarshalJSON(b)` of the CloudEvents SDK leaves behind: the
event the receiver holds after the call, and whether the call returned an
error.  A call that fails may already have filled part of the receiver. -/
structure Decoded where
  event : Event
  failed : Bool
  deriving DecidableEq, Repr

/-- Where the worker goroutine stands after a piece of its body: the cursor
`id`, the actions performed, and whether a panic stopped it. -/
structure Step where
  id : String
  actions : List Action
  panicked : Bool
  deriving DecidableEq, Repr

/-- The inner loop `for k, v := range msg.Values` (lines 95-105), started with
the event `ce`.  `unmarshal ce t` stands for `ce.UnmarshalJSON([]byte(t))`: the
receiver `ce` is overwritten by whatever the call leaves, also when it returns
an error (the code logs the error and does not reset `ce`).
The result is `none` when the assertion `v.(string)` panics. -/
def decodeValues (ceKey : String) (unmarshal : Event → String → Decoded) :
    List (String × Value) → Event → Option Event × List Action
  | [], ce => (some ce, [])
  | (k, v) :: rest, ce =>
    if k != ceKey then
      let r := decodeValues ceKey unmarshal rest ce
      (r.1, Action.log .debug ("Ignoring non expected key at message from backend: " ++ k) :: r.2)
    else
      match v with
      | .other _ => (none, [])
      | .str t =>
        if (unmarshal ce t).failed then
          let r := decodeValues ceKey unmarshal rest (unmarshal ce t).event
          (r.1, Action.log .error "Could not unmarshal CloudEvent from Redis" :: r.2)
        else decodeValues ceKey unmarshal rest (unmarshal ce t).event

/-- The body of `for _, msg := range streams[0].Messages` (lines 94-131) for
one message, entered with cursor `id`. -/
def processMessage (ceKey : String) (unmarshal : Event → String → Decoded)
    (id : String) (msg : XMessage) : Step :=
  match decodeValues ceKey unmarshal msg.Values Event.zero with
  | (none, logs) => ⟨id, logs, true⟩
  | (some ce, logs) =>
    if ce.ID == "" then
      ⟨id, logs ++ [Action.log .warn ("Removing non valid message from backend: " ++ msg.ID),
                    Action.ack msg.ID], false⟩
    else
      let ce1 := ce.SetExtension "tmbackendid" (.str msg.ID)
      ⟨if id != ">" then msg.ID else id, logs ++ [Action.go ce1], false⟩

/-- The loop `for _, msg := range streams[0].Messages`, entered with cursor
`id`.  A panic ends it. -/
def processMessages (ceKey : String) (unmarshal : Event → String → Decoded) :
    String → List XMessage → Step
  | id, [] => ⟨id, [], false⟩
  | id, msg :: rest =>
    let s := processMessage ceKey unmarshal id msg
    if s.panicked then s
    else
      let r := processMessages ceKey unmarshal s.id rest
      ⟨r.id, s.actions ++ r.actions, r.panicked⟩

/-- One iteration of the worker loop after the poll of `exitLoop` (lines 62-132),
entered with cursor `id`, when the group read returns `r`. -/
def iteration (ceKey : String) (unmarshal : Event → String → Decoded)
    (id : String) (r : ReadResult) : Step :=
  match r.err with
  | some text =>
    if !HasSuffix text "i/o timeout" && text != "context canceled" then
      ⟨id, [Action.xreadgroup id,
            Action.log .error "Error reading CloudEvents from consumer group"], false⟩
    else
      ⟨id, [Action.xreadgroup id], false⟩
  | none =>
    match r.streams with
    | [stream] =>
      let id1 := if stream.Messages.length == 0 && id != ">" then ">" else id
      let s := processMessages ceKey unmarshal id1 stream.Messages
      ⟨s.id, Action.xreadgroup id :: s.actions, s.panicked⟩
    | _ =>
      ⟨id, [Action.xreadgroup id, Action.log .error "unexpected number of streams read"], false⟩

/-- What the environment gives to one pass of `for { ... }`: the value of
`exitLoop` read at the top, and the result of the group read (used only when
the flag was read as false). -/
structure Poll where
  exitLoop : Bool
  result : ReadResult
  deriving DecidableEq, Repr

/-- How far the worker goroutine got. -/
inductive Status where
  /-- Still in the loop (the environment gave nothing more). -/
  | running
  /-- Left the loop through `break` and closed `stoppedCh`. -/
  | stopped
  /-- Aborted by a panic. -/
  | panicked
  deriving DecidableEq, Repr

/-- A run of the worker goroutine. -/
structure Run where
  actions : List Action
  id : String
  status : Status
  deriving DecidableEq, Repr

/-- The worker goroutine (lines 50-138) entered with cursor `id`. -/
def loop (ceKey : String) (unmarshal : Event → String → Decoded) :
    String → List Poll → Run
  | id, [] => ⟨[], id, .running⟩
  | id, p :: rest =>
    if p.exitLoop then ⟨[Action.closeStopped], id, .stopped⟩
    else
      let s := iteration ceKey unmarshal id p.result
      if s.panicked then ⟨s.actions, s.id, .panicked⟩
      else
        let r := loop ceKey unmarshal s.id rest
        ⟨s.actions ++ r.actions, r.id, r.status⟩

/-- The method `start` (line 38): the cursor begins at `"0"`. -/
def start (ceKey : String) (unmarshal : Event → String → Decoded) (env : List Poll) : Run :=
  loop ceKey unmarshal "0" env

/-- The goroutine of lines 116-124 for the event `ce`.
`ccbDispatch` stands for the caller's callback, which receives the pointer
`ce`: `none` when the call never returns, `some ce1` when it returns and the
event then reads `ce1`.  `ackErr id` is the error text of `s.ack(id)`, if any.
After the callback the identifier is read back from the event
(`ce.Extensions()["tmbackendid"].(string)`); the assertion panics when the
attribute is missing or is not a string. -/
def goroutine (ccbDispatch : Event → Option Event) (ackErr : String → Option String)
    (ce : Event) : List Action × Status :=
  match ccbDispatch ce with
  | none => ([Action.dispatch ce], .running)
  | some ce1 =>
    match ce1.Extension "tmbackendid" with
    | some (.str id) =>
      match ackErr id with
      | some _ =>
        ([Action.dispatch ce, Action.ack id,
          Action.log .error ("could not ACK the Redis message " ++ id ++
            " containing CloudEvent " ++ ce1.ID)], .stopped)
      | none => ([Action.dispatch ce, Action.ack id], .stopped)
    | _ => ([Action.dispatch ce], .panicked)

/-- All identifiers passed to `ack` by a run of the worker goroutine and by the
goroutines it started, each of these run to its end. -/
def allAcks (ccbDispatch : Event → Option Event) (ackErr : String → Option String)
    (actions : List Action) : List String :=
  acks actions ++
    (spawned actions).flatMap (fun ce => acks (goroutine ccbDispatch ackErr ce).1)

/-- A message at position `pos` whose payload holds `value` under `key`. -/
def mkMessage (pos key : String) (value : Value) : XMessage := ⟨pos, [(key, value)]⟩

/-- A successful read of one stream holding `msgs`. -/
def okRead (msgs : List XMessage) : ReadResult := ⟨[⟨"events", msgs⟩], none⟩

/-- A decoder for examples: the text `"bad"` fails and leaves the receiver as it
was, the text `"half"` fails after filling the identifier "half", any other
text `t` decodes to the event with identifier `t`. -/
def sampleUnmarshal (ce : Event) (t : String) : Decoded :=
  if t == "bad" then ⟨ce, true⟩
  else if t == "half" then ⟨⟨"half", [], ""⟩, true⟩
  else ⟨⟨t, [], t⟩, false⟩

/-- The action is a log entry. -/
def Action.isLog : Action → Bool
  | .log _ _ => true
  | _ => false

/-- Every action of `l` is a log entry. -/
def onlyLogs (l : List Action) : Prop := ∀ a ∈ l, a.isLog = true

instance (l : List Action) : Decidable (onlyLogs l) := by
  unfold onlyLogs
  infer_instance

/-- All events passed to the dispatch callback by a run of the worker goroutine
and by the goroutines it started. -/
def allDispatches (ccbDispatch : Event → Option Event) (ackErr : String → Option String)
    (actions : List Action) : List Event :=
  dispatched actions ++
    (spawned actions).flatMap (fun ce => dispatched (goroutine ccbDispatch ackErr ce).1)

/-- A callback for examples that returns without touching the event. -/
def readingCallback (ce : Event) : Option Event := some ce

/-- A callback for examples that returns after binding the attribute
"tmbackendid" of the event it was given to "9-9". -/
def rewritingCallback (ce : Event) : Option Event :=
  some (ce.SetExtension "tmbackendid" (.str "9-9"))

/-- An acknowledge call that never fails. -/
def ackOk (_ : String) : Option String := none

/-- The event a payload holds: what the text under the recognized field decodes
to, when there is such a text, it decodes without error, and the event has an
identifier. -/
def eventOf (ceKey : String) (unmarshal : Event → String → Decoded) (msg : XMessage) :
    Option Event :=
  match msg.Values.lookup ceKey with
  | some (.str t) =>
    if (unmarshal Event.zero t).failed then none
    else if (unmarshal Event.zero t).event.ID = "" then none
    else some (unmarshal Event.zero t).event
  | _ => none

/-- A valid message: the payload keys are distinct (it is a Go map) and the
payload holds an event. -/
def validMessage (ceKey : String) (unmarshal : Event → String → Decoded) (msg : XMessage) : Prop :=
  (msg.Values.map Prod.fst).Nodup ∧ (eventOf ceKey unmarshal msg).isSome = true

instance (ceKey : String) (unmarshal : Event → String → Decoded) (msg : XMessage) :
    Decidable (validMessage ceKey unmarshal msg) := by
  unfold validMessage
  infer_instance

/-- The events the loop hands to dispatch goroutines for the messages `msgs`:
each payload's event with the attribute "tmbackendid" bound to the position
identifier of its message. -/
def taggedEvents (ceKey : String) (unmarshal : Event → String → Decoded)
    (msgs : List XMessage) : List Event :=
  msgs.filterMap (fun m =>
    (eventOf ceKey unmarshal m).map (fun e => e.SetExtension "tmbackendid" (.str m.ID)))

theorem hasSuffix_iff (s suffix : String) :
    HasSuffix s suffix = true ↔ ∃ p : String, s = p ++ suffix := by
  unfold HasSuffix
  simp only [Bool.and_eq_true, decide_eq_true_eq, beq_iff_eq, String.length, ge_iff_le]
  constructor
  · rintro ⟨_, hdrop⟩
    refine ⟨⟨s.data.take (s.data.length - suffix.data.length)⟩, ?_⟩
    have hsplit := List.take_append_drop (s.data.length - suffix.data.length) s.data
    rw [hdrop] at hsplit
    apply String.ext
    rw [String.data_append]
    exact hsplit.symm
  · rintro ⟨p, rfl⟩
    simp [String.data_append]

/-- The text tests of lines 75-76, as a property of the error text. -/
theorem benign_iff (text : String) :
    (!HasSuffix text "i/o timeout" && text != "context canceled") = false ↔
      ((∃ p : String, text = p ++ "i/o timeout") ∨ text = "context canceled") := by
  rw [← hasSuffix_iff]
  cases h : HasSuffix text "i/o timeout" <;> simp

theorem isLog_shape (a : Action) (h : a.isLog = true) :
    ∃ level text, a = Action.log level text := by
  cases a <;> simp [Action.isLog] at h
  exact ⟨_, _, rfl⟩

theorem onlyLogs_nil : onlyLogs [] := by
  intro a ha
  cases ha

theorem onlyLogs_cons (level : Level) (text : String) (l : List Action) (h : onlyLogs l) :
    onlyLogs (Action.log level text :: l) := by
  intro a ha
  rcases List.mem_cons.mp ha with rfl | ha
  · rfl
  · exact h a ha

theorem acks_onlyLogs (l : List Action) (h : onlyLogs l) : acks l = [] := by
  induction l with
  | nil => rfl
  | cons a l ih =>
    obtain ⟨level, text, rfl⟩ := isLog_shape a (h a (List.mem_cons_self _ _))
    have := ih (fun b hb => h b (List.mem_cons_of_mem _ hb))
    simpa [acks] using this

theorem spawned_onlyLogs (l : List Action) (h : onlyLogs l) : spawned l = [] := by
  induction l with
  | nil => rfl
  | cons a l ih =>
    obtain ⟨level, text, rfl⟩ := isLog_shape a (h a (List.mem_cons_self _ _))
    have := ih (fun b hb => h b (List.mem_cons_of_mem _ hb))
    simpa [spawned] using this

theorem dispatched_onlyLogs (l : List Action) (h : onlyLogs l) : dispatched l = [] := by
  induction l with
  | nil => rfl
  | cons a l ih =>
    obtain ⟨level, text, rfl⟩ := isLog_shape a (h a (List.mem_cons_self _ _))
    have := ih (fun b hb => h b (List.mem_cons_of_mem _ hb))
    simpa [dispatched] using this

theorem acks_cons_ack (id : String) (l : List Action) :
    acks (Action.ack id :: l) = id :: acks l := rfl

theorem acks_cons_dispatch (ce : Event) (l : List Action) :
    acks (Action.dispatch ce :: l) = acks l := rfl

theorem dispatched_cons_dispatch (ce : Event) (l : List Action) :
    dispatched (Action.dispatch ce :: l) = ce :: dispatched l := rfl

theorem dispatched_cons_ack (id : String) (l : List Action) :
    dispatched (Action.ack id :: l) = dispatched l := rfl

theorem acks_append (l₁ l₂ : List Action) : acks (l₁ ++ l₂) = acks l₁ ++ acks l₂ := by
  simp [acks]

theorem spawned_append (l₁ l₂ : List Action) :
    spawned (l₁ ++ l₂) = spawned l₁ ++ spawned l₂ := by
  simp [spawned]

theorem dispatched_append (l₁ l₂ : List Action) :
    dispatched (l₁ ++ l₂) = dispatched l₁ ++ dispatched l₂ := by
  simp [dispatched]

theorem readStarts_append (l₁ l₂ : List Action) :
    readStarts (l₁ ++ l₂) = readStarts l₁ ++ readStarts l₂ := by
  simp [readStarts]

/-- The inner loop over the payload only writes log entries. -/
theorem decodeValues_onlyLogs (ceKey : String) (unmarshal : Event → String → Decoded) :
    ∀ (vs : List (String × Value)) (ce : Event),
      onlyLogs (decodeValues ceKey unmarshal vs ce).2 := by
  intro vs
  induction vs with
  | nil => intro ce; simpa [decodeValues] using onlyLogs_nil
  | cons kv rest ih =>
    intro ce
    obtain ⟨k, v⟩ := kv
    unfold decodeValues
    split
    · exact onlyLogs_cons _ _ _ (ih ce)
    · cases v with
      | other n => exact onlyLogs_nil
      | str t =>
        cases hu : (unmarshal ce t).failed with
        | true => simpa [hu] using onlyLogs_cons _ _ _ (ih (unmarshal ce t).event)
        | false => simpa [hu] using ih (unmarshal ce t).event

theorem lookup_eq_none_of_not_mem (key : String) :
    ∀ vs : List (String × Value), key ∉ vs.map Prod.fst → vs.lookup key = none := by
  intro vs
  induction vs with
  | nil => intro _; rfl
  | cons kv rest ih =>
    intro h
    obtain ⟨k, v⟩ := kv
    simp only [List.map_cons, List.mem_cons, not_or] at h
    have hne : (key == k) = false := by simpa using h.1
    simp [List.lookup, hne, ih h.2]

/-- A payload without the recognized field leaves the event as it was. -/
theorem decodeValues_absent (ceKey : String) (unmarshal : Event → String → Decoded) :
    ∀ (vs : List (String × Value)) (ce : Event), vs.lookup ceKey = none →
      (decodeValues ceKey unmarshal vs ce).1 = some ce := by
  intro vs
  induction vs with
  | nil => intro ce _; rfl
  | cons kv rest ih =>
    intro ce h
    obtain ⟨k, v⟩ := kv
    by_cases hk : ceKey = k
    · subst hk
      simp [List.lookup] at h
    · have hne : (ceKey == k) = false := by simpa using hk
      have hne2 : (k != ceKey) = true := by simpa using fun h => hk h.symm
      simp only [List.lookup, hne] at h
      simp [decodeValues, hne2, ih ce h]

/-- A payload (with distinct keys, as in a Go map) holding the text `t` under the
recognized field yields what the decoder makes of `t`. -/
theorem decodeValues_present (ceKey : String) (unmarshal : Event → String → Decoded) (t : String) :
    ∀ (vs : List (String × Value)) (ce : Event), (vs.map Prod.fst).Nodup →
      vs.lookup ceKey = some (.str t) →
      (decodeValues ceKey unmarshal vs ce).1 = some (unmarshal ce t).event := by
  intro vs
  induction vs with
  | nil => intro ce _ h; simp [List.lookup] at h
  | cons kv rest ih =>
    intro ce hnd h
    obtain ⟨k, v⟩ := kv
    simp only [List.map_cons, List.nodup_cons] at hnd
    by_cases hk : ceKey = k
    · subst hk
      have hv : v = .str t := by simpa [List.lookup] using h
      subst hv
      have hrest := lookup_eq_none_of_not_mem ceKey rest hnd.1
      cases hu : (unmarshal ce t).failed <;>
        simp [decodeValues, hu, decodeValues_absent ceKey unmarshal rest _ hrest]
    · have hne : (ceKey == k) = false := by simpa using hk
      have hne2 : (k != ceKey) = true := by simpa using fun h => hk h.symm
      simp only [List.lookup, hne] at h
      simp [decodeValues, hne2, ih ce hnd.2 h]

/-- A payload holding a value that is not a string under the recognized field
makes the assertion `v.(string)` panic. -/
theorem decodeValues_not_string (ceKey : String) (unmarshal : Event → String → Decoded) (n : Nat) :
    ∀ (vs : List (String × Value)) (ce : Event), (vs.map Prod.fst).Nodup →
      vs.lookup ceKey = some (.other n) →
      (decodeValues ceKey unmarshal vs ce).1 = none := by
  intro vs
  induction vs with
  | nil => intro ce _ h; simp [List.lookup] at h
  | cons kv rest ih =>
    intro ce hnd h
    obtain ⟨k, v⟩ := kv
    simp only [List.map_cons, List.nodup_cons] at hnd
    by_cases hk : ceKey = k
    · subst hk
      have hv : v = .other n := by simpa [List.lookup] using h
      subst hv
      simp [decodeValues]
    · have hne : (ceKey == k) = false := by simpa using hk
      have hne2 : (k != ceKey) = true := by simpa using fun h => hk h.symm
      simp only [List.lookup, hne] at h
      simp [decodeValues, hne2, ih ce hnd.2 h]

/-- Per-message processing when the inner loop leaves an event without
identifier: warn, acknowledge, keep the cursor. -/
theorem processMessage_invalid (ceKey : String) (unmarshal : Event → String → Decoded)
    (id : String) (msg : XMessage) (ce : Event)
    (hdec : (decodeValues ceKey unmarshal msg.Values Event.zero).1 = some ce)
    (hid : ce.ID = "") :
    processMessage ceKey unmarshal id msg =
      ⟨id, (decodeValues ceKey unmarshal msg.Values Event.zero).2 ++
        [Action.log .warn ("Removing non valid message from backend: " ++ msg.ID),
         Action.ack msg.ID], false⟩ := by
  unfold processMessage
  rcases hr : decodeValues ceKey unmarshal msg.Values Event.zero with ⟨o, logs⟩
  rw [hr] at hdec
  simp only at hdec
  subst hdec
  simp [hid]

/-- Per-message processing when the inner loop leaves an event with an
identifier: set the attribute, start the goroutine, advance a backlog cursor. -/
theorem processMessage_valid (ceKey : String) (unmarshal : Event → String → Decoded)
    (id : String) (msg : XMessage) (ce : Event)
    (hdec : (decodeValues ceKey unmarshal msg.Values Event.zero).1 = some ce)
    (hid : ce.ID ≠ "") :
    processMessage ceKey unmarshal id msg =
      ⟨if id != ">" then msg.ID else id,
       (decodeValues ceKey unmarshal msg.Values Event.zero).2 ++
        [Action.go (ce.SetExtension "tmbackendid" (.str msg.ID))], false⟩ := by
  unfold processMessage
  rcases hr : decodeValues ceKey unmarshal msg.Values Event.zero with ⟨o, logs⟩
  rw [hr] at hdec
  simp only at hdec
  subst hdec
  simp [hid]

/-- Per-message processing when the inner loop panics. -/
theorem processMessage_panic (ceKey : String) (unmarshal : Event → String → Decoded)
    (id : String) (msg : XMessage)
    (hdec : (decodeValues ceKey unmarshal msg.Values Event.zero).1 = none) :
    processMessage ceKey unmarshal id msg =
      ⟨id, (decodeValues ceKey unmarshal msg.Values Event.zero).2, true⟩ := by
  unfold processMessage
  rcases hr : decodeValues ceKey unmarshal msg.Values Event.zero with ⟨o, logs⟩
  rw [hr] at hdec
  simp only at hdec
  subst hdec
  rfl

theorem extension_setExtension (ce : Event) (name : String) (v : Value) :
    (ce.SetExtension name v).Extension name = some v := by
  simp [Event.SetExtension, Event.Extension, List.lookup]

/-- The cursor after one message: unchanged, or (from a backlog position) the
message's position identifier. -/
theorem processMessage_id_cases (ceKey : String) (unmarshal : Event → String → Decoded)
    (id : String) (msg : XMessage) :
    (processMessage ceKey unmarshal id msg).id = id ∨
      (id ≠ ">" ∧ (processMessage ceKey unmarshal id msg).id = msg.ID) := by
  cases hdec : (decodeValues ceKey unmarshal msg.Values Event.zero).1 with
  | none =>
    rw [processMessage_panic ceKey unmarshal _ msg hdec]
    exact Or.inl rfl
  | some ce =>
    by_cases hid : ce.ID = ""
    · rw [processMessage_invalid ceKey unmarshal _ msg ce hdec hid]
      exact Or.inl rfl
    · rw [processMessage_valid ceKey unmarshal _ msg ce hdec hid]
      by_cases hlive : id = ">"
      · exact Or.inl (by simp [hlive])
      · exact Or.inr ⟨hlive, by simp [hlive]⟩

theorem processMessages_live (ceKey : String) (unmarshal : Event → String → Decoded) :
    ∀ msgs : List XMessage, (processMessages ceKey unmarshal ">" msgs).id = ">" := by
  intro msgs
  induction msgs with
  | nil => rfl
  | cons msg rest ih =>
    have hone : (processMessage ceKey unmarshal ">" msg).id = ">" := by
      rcases processMessage_id_cases ceKey unmarshal ">" msg with h | ⟨h, _⟩
      · exact h
      · exact absurd rfl h
    unfold processMessages
    cases hp : (processMessage ceKey unmarshal ">" msg).panicked with
    | true => simpa [hp] using hone
    | false => simpa [hp, hone] using ih

theorem processMessages_backlog (ceKey : String) (unmarshal : Event → String → Decoded) :
    ∀ (msgs : List XMessage) (id : String), id ≠ ">" → (∀ m ∈ msgs, m.ID ≠ ">") →
      (processMessages ceKey unmarshal id msgs).id ≠ ">" := by
  intro msgs
  induction msgs with
  | nil => intro id hid _; exact hid
  | cons msg rest ih =>
    intro id hid hmsgs
    have hone : (processMessage ceKey unmarshal id msg).id ≠ ">" := by
      rcases processMessage_id_cases ceKey unmarshal id msg with h | ⟨_, h⟩
      · rw [h]; exact hid
      · rw [h]; exact hmsgs msg (List.mem_cons_self _ _)
    unfold processMessages
    cases hp : (processMessage ceKey unmarshal id msg).panicked with
    | true => simpa [hp] using hone
    | false =>
      simpa [hp] using ih _ hone (fun m hm => hmsgs m (List.mem_cons_of_mem _ hm))

theorem iteration_live (ceKey : String) (unmarshal : Event → String → Decoded) (r : ReadResult) :
    (iteration ceKey unmarshal ">" r).id = ">" := by
  obtain ⟨streams, err⟩ := r
  cases err with
  | some text =>
    cases hb : (!HasSuffix text "i/o timeout" && text != "context canceled") <;>
      simp [iteration, hb]
  | none =>
    match streams with
    | [] => simp [iteration]
    | [stream] => simpa [iteration] using processMessages_live ceKey unmarshal stream.Messages
    | _ :: _ :: _ => simp [iteration]

theorem readStarts_onlyLogs (l : List Action) (h : onlyLogs l) : readStarts l = [] := by
  induction l with
  | nil => rfl
  | cons a l ih =>
    obtain ⟨level, text, rfl⟩ := isLog_shape a (h a (List.mem_cons_self _ _))
    have := ih (fun b hb => h b (List.mem_cons_of_mem _ hb))
    simpa [readStarts] using this

theorem readStarts_processMessage (ceKey : String) (unmarshal : Event → String → Decoded)
    (id : String) (msg : XMessage) :
    readStarts (processMessage ceKey unmarshal id msg).actions = [] := by
  have hlogs := decodeValues_onlyLogs ceKey unmarshal msg.Values Event.zero
  cases hdec : (decodeValues ceKey unmarshal msg.Values Event.zero).1 with
  | none =>
    rw [processMessage_panic ceKey unmarshal _ msg hdec]
    exact readStarts_onlyLogs _ hlogs
  | some ce =>
    by_cases hid : ce.ID = ""
    · rw [processMessage_invalid ceKey unmarshal _ msg ce hdec hid]
      simp only [readStarts_append, readStarts_onlyLogs _ hlogs]
      rfl
    · rw [processMessage_valid ceKey unmarshal _ msg ce hdec hid]
      simp only [readStarts_append, readStarts_onlyLogs _ hlogs]
      rfl

theorem readStarts_processMessages (ceKey : String) (unmarshal : Event → String → Decoded) :
    ∀ (msgs : List XMessage) (id : String),
      readStarts (processMessages ceKey unmarshal id msgs).actions = [] := by
  intro msgs
  induction msgs with
  | nil => intro id; rfl
  | cons msg rest ih =>
    intro id
    unfold processMessages
    cases hp : (processMessage ceKey unmarshal id msg).panicked with
    | true => simpa [hp] using readStarts_processMessage ceKey unmarshal id msg
    | false =>
      simp only [hp, Bool.false_eq_true, if_false]
      rw [readStarts_append, readStarts_processMessage, ih]
      rfl

/-- Every iteration performs exactly one group read, from the cursor it was
entered with. -/
theorem readStarts_iteration (ceKey : String) (unmarshal : Event → String → Decoded)
    (id : String) (r : ReadResult) :
    readStarts (iteration ceKey unmarshal id r).actions = [id] := by
  obtain ⟨streams, err⟩ := r
  cases err with
  | some text =>
    cases hb : (!HasSuffix text "i/o timeout" && text != "context canceled") <;>
      simp [iteration, hb, readStarts]
  | none =>
    match streams with
    | [] => simp [iteration, readStarts]
    | [stream] =>
      have h := readStarts_processMessages ceKey unmarshal stream.Messages
        (if stream.Messages.length == 0 && id != ">" then ">" else id)
      simp only [iteration]
      show readStarts (Action.xreadgroup id :: _) = [id]
      change id :: readStarts _ = [id]
      rw [h]
    | _ :: _ :: _ => simp [iteration, readStarts]

theorem loop_live (ceKey : String) (unmarshal : Event → String → Decoded) :
    ∀ env : List Poll, (loop ceKey unmarshal ">" env).id = ">" ∧
      ∀ x ∈ readStarts (loop ceKey unmarshal ">" env).actions, x = ">" := by
  intro env
  induction env with
  | nil => simp [loop, readStarts]
  | cons p rest ih =>
    unfold loop
    cases hx : p.exitLoop with
    | true => simp [readStarts]
    | false =>
      have hid := iteration_live ceKey unmarshal p.result
      have hrs := readStarts_iteration ceKey unmarshal ">" p.result
      cases hp : (iteration ceKey unmarshal ">" p.result).panicked with
      | true => simp [hp, hid, hrs]
      | false =>
        simp only [hp, hid, Bool.false_eq_true, if_false, readStarts_append, hrs]
        refine ⟨ih.1, ?_⟩
        intro x hxmem
        rcases List.mem_append.mp hxmem with h | h
        · simpa using h
        · exact ih.2 x h

theorem closeStopped_not_mem_onlyLogs (l : List Action) (h : onlyLogs l) :
    Action.closeStopped ∉ l := by
  intro hmem
  obtain ⟨level, text, heq⟩ := isLog_shape _ (h _ hmem)
  cases heq

theorem closeStopped_not_mem_processMessage (ceKey : String)
    (unmarshal : Event → String → Decoded) (id : String) (msg : XMessage) :
    Action.closeStopped ∉ (processMessage ceKey unmarshal id msg).actions := by
  have hlogs := closeStopped_not_mem_onlyLogs _
    (decodeValues_onlyLogs ceKey unmarshal msg.Values Event.zero)
  cases hdec : (decodeValues ceKey unmarshal msg.Values Event.zero).1 with
  | none =>
    rw [processMessage_panic ceKey unmarshal _ msg hdec]
    exact hlogs
  | some ce =>
    by_cases hid : ce.ID = ""
    · rw [processMessage_invalid ceKey unmarshal _ msg ce hdec hid]
      simp [hlogs]
    · rw [processMessage_valid ceKey unmarshal _ msg ce hdec hid]
      simp [hlogs]

theorem closeStopped_not_mem_processMessages (ceKey : String)
    (unmarshal : Event → String → Decoded) :
    ∀ (msgs : List XMessage) (id : String),
      Action.closeStopped ∉ (processMessages ceKey unmarshal id msgs).actions := by
  intro msgs
  induction msgs with
  | nil => intro id; simp [processMessages]
  | cons msg rest ih =>
    intro id
    have hone := closeStopped_not_mem_processMessage ceKey unmarshal id msg
    unfold processMessages
    cases hp : (processMessage ceKey unmarshal id msg).panicked with
    | true => simpa [hp] using hone
    | false => simpa [hp, hone] using ih _

theorem closeStopped_not_mem_iteration (ceKey : String) (unmarshal : Event → String → Decoded)
    (id : String) (r : ReadResult) :
    Action.closeStopped ∉ (iteration ceKey unmarshal id r).actions := by
  obtain ⟨streams, err⟩ := r
  cases err with
  | some text =>
    cases hb : (!HasSuffix text "i/o timeout" && text != "context canceled") <;>
      simp [iteration, hb]
  | none =>
    match streams with
    | [] => simp [iteration]
    | [stream] =>
      simpa [iteration] using closeStopped_not_mem_processMessages ceKey unmarshal
        stream.Messages (if stream.Messages.length == 0 && id != ">" then ">" else id)
    | _ :: _ :: _ => simp [iteration]

/-- While the worker goroutine is in its loop it has not closed `stoppedCh`. -/
theorem closeStopped_not_mem_running (ceKey : String) (unmarshal : Event → String → Decoded) :
    ∀ (env : List Poll) (id : String), (loop ceKey unmarshal id env).status = .running →
      Action.closeStopped ∉ (loop ceKey unmarshal id env).actions := by
  intro env
  induction env with
  | nil => intro id _; simp [loop]
  | cons p rest ih =>
    intro id
    unfold loop
    cases hx : p.exitLoop with
    | true => simp
    | false =>
      have hit := closeStopped_not_mem_iteration ceKey unmarshal id p.result
      cases hp : (iteration ceKey unmarshal id p.result).panicked with
      | true => simp [hp]
      | false =>
        simp only [hp, Bool.false_eq_true, if_false, List.mem_append, not_or]
        intro hrun
        exact ⟨hit, ih _ hrun⟩

theorem loop_cons (ceKey : String) (unmarshal : Event → String → Decoded) (id : String)
    (p : Poll) (rest : List Poll) :
    loop ceKey unmarshal id (p :: rest) =
      if p.exitLoop then ⟨[Action.closeStopped], id, .stopped⟩
      else if (iteration ceKey unmarshal id p.result).panicked then
        ⟨(iteration ceKey unmarshal id p.result).actions,
          (iteration ceKey unmarshal id p.result).id, .panicked⟩
      else
        ⟨(iteration ceKey unmarshal id p.result).actions ++
            (loop ceKey unmarshal (iteration ceKey unmarshal id p.result).id rest).actions,
          (loop ceKey unmarshal (iteration ceKey unmarshal id p.result).id rest).id,
          (loop ceKey unmarshal (iteration ceKey unmarshal id p.result).id rest).status⟩ := by
  rw [loop]

/-- A run that is still in its loop goes on with what the environment gives
next. -/
theorem loop_append (ceKey : String) (unmarshal : Event → String → Decoded) (post : List Poll) :
    ∀ (pre : List Poll) (id : String), (loop ceKey unmarshal id pre).status = .running →
      loop ceKey unmarshal id (pre ++ post) =
        ⟨(loop ceKey unmarshal id pre).actions ++
            (loop ceKey unmarshal (loop ceKey unmarshal id pre).id post).actions,
          (loop ceKey unmarshal (loop ceKey unmarshal id pre).id post).id,
          (loop ceKey unmarshal (loop ceKey unmarshal id pre).id post).status⟩ := by
  intro pre
  induction pre with
  | nil => intro id _; simp [loop]
  | cons p rest ih =>
    intro id
    simp only [List.cons_append, loop_cons]
    cases hx : p.exitLoop with
    | true => simp
    | false =>
      cases hp : (iteration ceKey unmarshal id p.result).panicked with
      | true => simp
      | false =>
        simp only [Bool.false_eq_true, if_false]
        intro hrun
        rw [ih _ hrun]
        simp

theorem processMessages_cons (ceKey : String) (unmarshal : Event → String → Decoded)
    (id : String) (msg : XMessage) (rest : List XMessage) :
    processMessages ceKey unmarshal id (msg :: rest) =
      if (processMessage ceKey unmarshal id msg).panicked then
        processMessage ceKey unmarshal id msg
      else
        ⟨(processMessages ceKey unmarshal (processMessage ceKey unmarshal id msg).id rest).id,
          (processMessage ceKey unmarshal id msg).actions ++
            (processMessages ceKey unmarshal (processMessage ceKey unmarshal id msg).id
              rest).actions,
          (processMessages ceKey unmarshal (processMessage ceKey unmarshal id msg).id
            rest).panicked⟩ := by
  rw [processMessages]

/-- Processing a list that did not panic goes on with the messages that
follow. -/
theorem processMessages_append (ceKey : String) (unmarshal : Event → String → Decoded)
    (post : List XMessage) :
    ∀ (pre : List XMessage) (id : String),
      (processMessages ceKey unmarshal id pre).panicked = false →
      processMessages ceKey unmarshal id (pre ++ post) =
        ⟨(processMessages ceKey unmarshal (processMessages ceKey unmarshal id pre).id post).id,
          (processMessages ceKey unmarshal id pre).actions ++
            (processMessages ceKey unmarshal (processMessages ceKey unmarshal id pre).id
              post).actions,
          (processMessages ceKey unmarshal (processMessages ceKey unmarshal id pre).id
            post).panicked⟩ := by
  intro pre
  induction pre with
  | nil => intro id _; simp [processMessages]
  | cons msg rest ih =>
    intro id
    simp only [List.cons_append, processMessages_cons]
    cases hp : (processMessage ceKey unmarshal id msg).panicked with
    | true => simp [hp]
    | false =>
      simp only [Bool.false_eq_true, if_false]
      intro hrest
      rw [ih _ hrest]
      simp

/-- What the inner loop makes of a valid message. -/
theorem decodeValues_valid (ceKey : String) (unmarshal : Event → String → Decoded)
    (msg : XMessage) (h : validMessage ceKey unmarshal msg) :
    ∃ e, eventOf ceKey unmarshal msg = some e ∧ e.ID ≠ "" ∧
      (decodeValues ceKey unmarshal msg.Values Event.zero).1 = some e := by
  obtain ⟨hkeys, hsome⟩ := h
  unfold eventOf at hsome ⊢
  cases hl : msg.Values.lookup ceKey with
  | none => simp [hl] at hsome
  | some v =>
    cases v with
    | other n => simp [hl] at hsome
    | str t =>
      cases hu : (unmarshal Event.zero t).failed with
      | true => simp [hl, hu] at hsome
      | false =>
        by_cases hid : (unmarshal Event.zero t).event.ID = ""
        · simp [hl, hu, hid] at hsome
        · exact ⟨(unmarshal Event.zero t).event, by simp [hu, hid], hid,
            decodeValues_present ceKey unmarshal t _ _ hkeys hl⟩

/-- Valid messages are handed to dispatch goroutines one by one, in the order
of the list, and the loop itself acknowledges none of them. -/
theorem processMessages_valid (ceKey : String) (unmarshal : Event → String → Decoded) :
    ∀ (msgs : List XMessage) (id : String), (∀ m ∈ msgs, validMessage ceKey unmarshal m) →
      (processMessages ceKey unmarshal id msgs).panicked = false ∧
      spawned (processMessages ceKey unmarshal id msgs).actions =
        taggedEvents ceKey unmarshal msgs ∧
      acks (processMessages ceKey unmarshal id msgs).actions = [] := by
  intro msgs
  induction msgs with
  | nil => intro id _; exact ⟨rfl, rfl, rfl⟩
  | cons msg rest ih =>
    intro id hvalid
    obtain ⟨e, he, hid, hdec⟩ :=
      decodeValues_valid ceKey unmarshal msg (hvalid msg (List.mem_cons_self _ _))
    have hlogs := decodeValues_onlyLogs ceKey unmarshal msg.Values Event.zero
    have hone := processMessage_valid ceKey unmarshal id msg e hdec hid
    obtain ⟨h1, h2, h3⟩ := ih (if id != ">" then msg.ID else id)
      (fun m hm => hvalid m (List.mem_cons_of_mem _ hm))
    rw [processMessages_cons, hone]
    simp only [Bool.false_eq_true, if_false]
    refine ⟨h1, ?_, ?_⟩
    · rw [spawned_append, spawned_append, spawned_onlyLogs _ hlogs, h2]
      simp [taggedEvents, he, spawned]
    · rw [acks_append, acks_append, acks_onlyLogs _ hlogs, h3]
      rfl

/-- The goroutines started for valid messages carry the position identifiers
of the messages, in the order of the list. -/
theorem taggedEvents_tags (ceKey : String) (unmarshal : Event → String → Decoded) :
    ∀ msgs : List XMessage, (∀ m ∈ msgs, validMessage ceKey unmarshal m) →
      (taggedEvents ceKey unmarshal msgs).map (fun ce => ce.Extension "tmbackendid") =
        msgs.map (fun m => some (Value.str m.ID)) := by
  intro msgs
  induction msgs with
  | nil => intro _; rfl
  | cons msg rest ih =>
    intro hvalid
    obtain ⟨e, he, _, _⟩ :=
      decodeValues_valid ceKey unmarshal msg (hvalid msg (List.mem_cons_self _ _))
    have hrest := ih (fun m hm => hvalid m (List.mem_cons_of_mem _ hm))
    unfold taggedEvents at hrest ⊢
    simp only [List.filterMap_cons, he, Option.map_some', List.map_cons, hrest,
      extension_setExtension]

/-- An iteration that does not panic is followed by a read from the cursor it
left. -/
theorem readStarts_loop_cons (ceKey : String) (unmarshal : Event → String → Decoded)
    (id : String) (r : ReadResult) (rest : List Poll)
    (hp : (iteration ceKey unmarshal id r).panicked = false) :
    readStarts (loop ceKey unmarshal id (⟨false, r⟩ :: rest)).actions =
      id :: readStarts (loop ceKey unmarshal (iteration ceKey unmarshal id r).id rest).actions := by
  rw [loop_cons]
  simp only [Bool.false_eq_true, if_false, hp]
  rw [readStarts_append, readStarts_iteration]
  rfl

/-- The first read of a run that has not been told to stop starts at the
cursor. -/
theorem readStarts_loop_head (ceKey : String) (unmarshal : Event → String → Decoded)
    (id : String) (r : ReadResult) (rest : List Poll) :
    (readStarts (loop ceKey unmarshal id (⟨false, r⟩ :: rest)).actions).take 1 = [id] := by
  rw [loop_cons]
  cases hp : (iteration ceKey unmarshal id r).panicked with
  | true => simp [readStarts_iteration]
  | false => simp [readStarts_append, readStarts_iteration]

/-- From a backlog cursor, and when no message has the sentinel as its position
identifier, an iteration leaves the cursor at the sentinel exactly when the read
succeeded with one stream holding zero messages. -/
theorem iteration_switch_iff (ceKey : String) (unmarshal : Event → String → Decoded)
    (id : String) (r : ReadResult) (hid : id ≠ ">")
    (hmsgs : ∀ st ∈ r.streams, ∀ m ∈ st.Messages, m.ID ≠ ">") :
    (iteration ceKey unmarshal id r).id = ">" ↔
      (r.err = none ∧ ∃ name, r.streams = [⟨name, []⟩]) := by
  obtain ⟨streams, err⟩ := r
  cases err with
  | some text =>
    cases hb : (!HasSuffix text "i/o timeout" && text != "context canceled") <;>
      simp [iteration, hb, hid]
  | none =>
    match streams, hmsgs with
    | [], _ => simp [iteration, hid]
    | _ :: _ :: _, _ => simp [iteration, hid]
    | [⟨name, msgs⟩], hm =>
      cases msgs with
      | nil => simp [iteration, processMessages, hid]
      | cons msg rest =>
        have hne : (processMessages ceKey unmarshal id (msg :: rest)).id ≠ ">" :=
          processMessages_backlog ceKey unmarshal (msg :: rest) id hid
            (fun m hmem => hm ⟨name, msg :: rest⟩ (List.mem_singleton.mpr rfl) m hmem)
        simp [iteration, hne]

/-- A run from a backlog cursor that meets no successful read of zero messages
(and no message with the sentinel as position identifier) stays in the
backlog: all its reads start at backlog positions. -/
theorem loop_backlog (ceKey : String) (unmarshal : Event → String → Decoded) :
    ∀ (pre : List Poll) (id : String), id ≠ ">" →
      (∀ p ∈ pre, ∀ st ∈ p.result.streams, ∀ m ∈ st.Messages, m.ID ≠ ">") →
      (∀ p ∈ pre, ¬ (p.result.err = none ∧ ∃ name, p.result.streams = [⟨name, []⟩])) →
      (loop ceKey unmarshal id pre).id ≠ ">" ∧
      ∀ x ∈ readStarts (loop ceKey unmarshal id pre).actions, x ≠ ">" := by
  intro pre
  induction pre with
  | nil => intro id hid _ _; simpa [loop, readStarts] using hid
  | cons p rest ih =>
    intro id hid hids hnone
    have hit : (iteration ceKey unmarshal id p.result).id ≠ ">" := fun h =>
      hnone p (List.mem_cons_self _ _)
        ((iteration_switch_iff ceKey unmarshal id p.result hid
          (hids p (List.mem_cons_self _ _))).mp h)
    have hrs := readStarts_iteration ceKey unmarshal id p.result
    obtain ⟨h1, h2⟩ := ih _ hit (fun q hq => hids q (List.mem_cons_of_mem _ hq))
      (fun q hq => hnone q (List.mem_cons_of_mem _ hq))
    rw [loop_cons]
    cases hx : p.exitLoop with
    | true => simpa [readStarts] using hid
    | false =>
      cases hp : (iteration ceKey unmarshal id p.result).panicked with
      | true => simpa [hrs] using ⟨hit, hid⟩
      | false =>
        simp only [Bool.false_eq_true, if_false, readStarts_append, hrs]
        refine ⟨h1, ?_⟩
        intro x hxmem
        rcases List.mem_append.mp hxmem with h | h
        · rw [List.mem_singleton.mp h]; exact hid
        · exact h2 x h

/-- A goroutine whose callback returns leaving the attribute in place calls the
callback once, then acknowledges once with the identifier the event carries,
and ends. -/
theorem goroutine_run (ccbDispatch : Event → Option Event) (ackErr : String → Option String)
    (ce ce1 : Event) (id : String)
    (hreturns : ccbDispatch ce = some ce1)
    (hkept : ce1.Extension "tmbackendid" = some (.str id)) :
    ∃ logs, onlyLogs logs ∧
      goroutine ccbDispatch ackErr ce =
        (Action.dispatch ce :: Action.ack id :: logs, Status.stopped) := by
  cases hx : ackErr id with
  | none => exact ⟨[], onlyLogs_nil, by simp [goroutine, hreturns, hkept, hx]⟩
  | some err =>
    exact ⟨[Action.log .error ("could not ACK the Redis message " ++ id ++
        " containing CloudEvent " ++ ce1.ID)], onlyLogs_cons _ _ _ onlyLogs_nil,
      by simp [goroutine, hreturns, hkept, hx]⟩

/-- A message (payload keys distinct, as in a Go map) whose payload lacks the
recognized field, or holds under it a text after whose decoding the event has
an empty identifier, is acknowledged once by the loop itself and never handed
to the callback. -/
theorem processMessage_dropped (ceKey : String)
    (unmarshal : Event → String → Decoded) (id : String) (msg : XMessage)
    (ccbDispatch : Event → Option Event) (ackErr : String → Option String)
    (hkeys : (msg.Values.map Prod.fst).Nodup)
    (hinvalid : msg.Values.lookup ceKey = none ∨
      ∃ t, msg.Values.lookup ceKey = some (.str t) ∧ (unmarshal Event.zero t).event.ID = "") :
    acks (processMessage ceKey unmarshal id msg).actions = [msg.ID] ∧
    spawned (processMessage ceKey unmarshal id msg).actions = [] ∧
    allAcks ccbDispatch ackErr (processMessage ceKey unmarshal id msg).actions = [msg.ID] ∧
    allDispatches ccbDispatch ackErr (processMessage ceKey unmarshal id msg).actions = [] ∧
    (processMessage ceKey unmarshal id msg).panicked = false := by
  have hdec : ∃ ce, (decodeValues ceKey unmarshal msg.Values Event.zero).1 = some ce ∧
      ce.ID = "" := by
    rcases hinvalid with h | ⟨t, ht, hid⟩
    · exact ⟨Event.zero, decodeValues_absent ceKey unmarshal _ _ h, rfl⟩
    · exact ⟨_, decodeValues_present ceKey unmarshal t _ _ hkeys ht, hid⟩
  obtain ⟨ce, hce, hid⟩ := hdec
  have hlogs := decodeValues_onlyLogs ceKey unmarshal msg.Values Event.zero
  rw [processMessage_invalid ceKey unmarshal id msg ce hce hid]
  have ha : acks ((decodeValues ceKey unmarshal msg.Values Event.zero).2 ++
      [Action.log .warn ("Removing non valid message from backend: " ++ msg.ID),
       Action.ack msg.ID]) = [msg.ID] := by
    rw [acks_append, acks_onlyLogs _ hlogs]
    simp [acks]
  have hs : spawned ((decodeValues ceKey unmarshal msg.Values Event.zero).2 ++
      [Action.log .warn ("Removing non valid message from backend: " ++ msg.ID),
       Action.ack msg.ID]) = [] := by
    rw [spawned_append, spawned_onlyLogs _ hlogs]
    simp [spawned]
  have hd : dispatched ((decodeValues ceKey unmarshal msg.Values Event.zero).2 ++
      [Action.log .warn ("Removing non valid message from backend: " ++ msg.ID),
       Action.ack msg.ID]) = [] := by
    rw [dispatched_append, dispatched_onlyLogs _ hlogs]
    simp [dispatched]
  refine ⟨ha, hs, ?_, ?_, rfl⟩
  · simp only [allAcks, ha, hs]
    simp
  · simp only [allDispatches, hd, hs]
    simp


/-! ## Claims -/

/-- C2 as stated fails: the message at "1-0" holds a valid event under the
recognized field and the callback returns, but the callback has bound the
attribute "tmbackendid" of the event it was handed to "9-9"; the goroutine reads
the identifier back from the event and acknowledges "9-9", not "1-0". -/
theorem C2_counterexample_callback_rewrites_attribute :
    (mkMessage "1-0" "ce" (.str "a")).Values.lookup "ce" = some (.str "a") ∧
    sampleUnmarshal Event.zero "a" = ⟨⟨"a", [], "a"⟩, false⟩ ∧
    spawned (processMessage "ce" sampleUnmarshal "0" (mkMessage "1-0" "ce" (.str "a"))).actions
      = [⟨"a", [("tmbackendid", .str "1-0")], "a"⟩] ∧
    (rewritingCallback ⟨"a", [("tmbackendid", .str "1-0")], "a"⟩).isSome = true ∧
    goroutine rewritingCallback ackOk ⟨"a", [("tmbackendid", .str "1-0")], "a"⟩ =
      ([Action.dispatch ⟨"a", [("tmbackendid", .str "1-0")], "a"⟩, Action.ack "9-9"],
        Status.stopped) ∧
    allAcks rewritingCallback ackOk
      (processMessage "ce" sampleUnmarshal "0" (mkMessage "1-0" "ce" (.str "a"))).actions
      ≠ ["1-0"] := by
  decide

/-- C2 (amended): for a message (payload keys distinct) holding under the
recognized field a text that decodes to an event with a non-empty identifier,
and a callback that returns leaving the attribute "tmbackendid" of the event as
the loop set it, per-message processing starts exactly one goroutine and
acknowledges nothing itself; the event carries "tmbackendid" equal to the
message's position identifier; the goroutine calls the callback once with that
event, then acknowledges once with that identifier, and ends. -/
theorem C2_valid_message_dispatched_then_acked (ceKey : String)
    (unmarshal : Event → String → Decoded) (id : String) (msg : XMessage) (t : String)
    (e ce1 : Event) (ccbDispatch : Event → Option Event) (ackErr : String → Option String)
    (hkeys : (msg.Values.map Prod.fst).Nodup)
    (hfield : msg.Values.lookup ceKey = some (.str t))
    (hdecode : unmarshal Event.zero t = ⟨e, false⟩) (hid : e.ID ≠ "")
    (hreturns : ccbDispatch (e.SetExtension "tmbackendid" (.str msg.ID)) = some ce1)
    (hkept : ce1.Extension "tmbackendid" =
      (e.SetExtension "tmbackendid" (.str msg.ID)).Extension "tmbackendid") :
    spawned (processMessage ceKey unmarshal id msg).actions =
      [e.SetExtension "tmbackendid" (.str msg.ID)] ∧
    (e.SetExtension "tmbackendid" (.str msg.ID)).Extension "tmbackendid" =
      some (.str msg.ID) ∧
    acks (processMessage ceKey unmarshal id msg).actions = [] ∧
    dispatched (processMessage ceKey unmarshal id msg).actions = [] ∧
    (processMessage ceKey unmarshal id msg).panicked = false ∧
    (∃ logs, onlyLogs logs ∧
      goroutine ccbDispatch ackErr (e.SetExtension "tmbackendid" (.str msg.ID)) =
        (Action.dispatch (e.SetExtension "tmbackendid" (.str msg.ID)) ::
          Action.ack msg.ID :: logs, Status.stopped)) ∧
    allDispatches ccbDispatch ackErr (processMessage ceKey unmarshal id msg).actions =
      [e.SetExtension "tmbackendid" (.str msg.ID)] ∧
    allAcks ccbDispatch ackErr (processMessage ceKey unmarshal id msg).actions = [msg.ID] := by
  have hce : (decodeValues ceKey unmarshal msg.Values Event.zero).1 = some e := by
    rw [decodeValues_present ceKey unmarshal t _ _ hkeys hfield, hdecode]
  have hlogs := decodeValues_onlyLogs ceKey unmarshal msg.Values Event.zero
  have hext := extension_setExtension e "tmbackendid" (.str msg.ID)
  rw [hext] at hkept
  rw [processMessage_valid ceKey unmarshal id msg e hce hid]
  have hs : spawned ((decodeValues ceKey unmarshal msg.Values Event.zero).2 ++
      [Action.go (e.SetExtension "tmbackendid" (.str msg.ID))]) =
      [e.SetExtension "tmbackendid" (.str msg.ID)] := by
    rw [spawned_append, spawned_onlyLogs _ hlogs]
    simp [spawned]
  have ha : acks ((decodeValues ceKey unmarshal msg.Values Event.zero).2 ++
      [Action.go (e.SetExtension "tmbackendid" (.str msg.ID))]) = [] := by
    rw [acks_append, acks_onlyLogs _ hlogs]
    simp [acks]
  have hd : dispatched ((decodeValues ceKey unmarshal msg.Values Event.zero).2 ++
      [Action.go (e.SetExtension "tmbackendid" (.str msg.ID))]) = [] := by
    rw [dispatched_append, dispatched_onlyLogs _ hlogs]
    simp [dispatched]
  have hg := goroutine_run ccbDispatch ackErr _ ce1 msg.ID hreturns hkept
  obtain ⟨logs, hl, hrun⟩ := hg
  refine ⟨hs, hext, ha, hd, rfl, ⟨logs, hl, hrun⟩, ?_, ?_⟩
  · have hgd : dispatched (Action.dispatch (e.SetExtension "tmbackendid" (.str msg.ID)) ::
        Action.ack msg.ID :: logs) = [e.SetExtension "tmbackendid" (.str msg.ID)] := by
      rw [dispatched_cons_dispatch, dispatched_cons_ack, dispatched_onlyLogs logs hl]
    simp only [allDispatches, hd, hs, List.flatMap_cons, List.flatMap_nil, hrun, hgd]
    rfl
  · have hga : acks (Action.dispatch (e.SetExtension "tmbackendid" (.str msg.ID)) ::
        Action.ack msg.ID :: logs) = [msg.ID] := by
      rw [acks_cons_dispatch, acks_cons_ack, acks_onlyLogs logs hl]
    simp only [allAcks, ha, hs, List.flatMap_cons, List.flatMap_nil, hrun, hga]
    rfl

theorem C2_valid_message_dispatched_then_acked_witness :
    spawned (processMessage "ce" sampleUnmarshal "0"
      ⟨"1-0", [("trace", .str "x"), ("ce", .str "a")]⟩).actions =
      [Event.SetExtension ⟨"a", [], "a"⟩ "tmbackendid" (.str "1-0")] ∧
    (Event.SetExtension ⟨"a", [], "a"⟩ "tmbackendid" (.str "1-0")).Extension "tmbackendid" =
      some (.str "1-0") ∧
    acks (processMessage "ce" sampleUnmarshal "0"
      ⟨"1-0", [("trace", .str "x"), ("ce", .str "a")]⟩).actions = [] ∧
    dispatched (processMessage "ce" sampleUnmarshal "0"
      ⟨"1-0", [("trace", .str "x"), ("ce", .str "a")]⟩).actions = [] ∧
    (processMessage "ce" sampleUnmarshal "0"
      ⟨"1-0", [("trace", .str "x"), ("ce", .str "a")]⟩).panicked = false ∧
    (∃ logs, onlyLogs logs ∧
      goroutine readingCallback ackOk
          (Event.SetExtension ⟨"a", [], "a"⟩ "tmbackendid" (.str "1-0")) =
        (Action.dispatch (Event.SetExtension ⟨"a", [], "a"⟩ "tmbackendid" (.str "1-0")) ::
          Action.ack "1-0" :: logs, Status.stopped)) ∧
    allDispatches readingCallback ackOk (processMessage "ce" sampleUnmarshal "0"
      ⟨"1-0", [("trace", .str "x"), ("ce", .str "a")]⟩).actions =
      [Event.SetExtension ⟨"a", [], "a"⟩ "tmbackendid" (.str "1-0")] ∧
    allAcks readingCallback ackOk (processMessage "ce" sampleUnmarshal "0"
      ⟨"1-0", [("trace", .str "x"), ("ce", .str "a")]⟩).actions = ["1-0"] :=
  C2_valid_message_dispatched_then_acked "ce" sampleUnmarshal "0"
    ⟨"1-0", [("trace", .str "x"), ("ce", .str "a")]⟩ "a" ⟨"a", [], "a"⟩
    (Event.SetExtension ⟨"a", [], "a"⟩ "tmbackendid" (.str "1-0")) readingCallback ackOk
    (by decide) (by decide) (by decide) (by decide) (by decide) (by decide)

/-- C3: the code at a message whose text under the recognized field fails to
decode after the decoder has filled the identifier.  The error is logged, but
the event is not reset and only its identifier is tested (line 108): the loop
does not acknowledge the message, it binds "tmbackendid", starts the dispatch
goroutine and advances the cursor, and the callback is invoked with the
half-decoded event. -/
theorem C3_undecodable_message_is_dispatched :
    (mkMessage "1-0" "ce" (.str "half")).Values.lookup "ce" = some (.str "half") ∧
    sampleUnmarshal Event.zero "half" = ⟨⟨"half", [], ""⟩, true⟩ ∧
    processMessage "ce" sampleUnmarshal "0" (mkMessage "1-0" "ce" (.str "half")) =
      ⟨"1-0", [Action.log .error "Could not unmarshal CloudEvent from Redis",
               Action.go ⟨"half", [("tmbackendid", .str "1-0")], ""⟩], false⟩ ∧
    acks (processMessage "ce" sampleUnmarshal "0"
      (mkMessage "1-0" "ce" (.str "half"))).actions = [] ∧
    allDispatches readingCallback ackOk (processMessage "ce" sampleUnmarshal "0"
      (mkMessage "1-0" "ce" (.str "half"))).actions =
      [⟨"half", [("tmbackendid", .str "1-0")], ""⟩] := by
  decide

/-- C4: the cursor starts at "0" and the first read starts there.  For read
outcomes whose messages carry position identifiers of the stream (Redis entry
identifiers, never the sentinel ">"): an iteration entered with a backlog
cursor leaves the cursor at ">" exactly when the read succeeded with one stream
holding zero messages; a run that has met no such read is still in the backlog
(every read started at a backlog position); at the first such read the cursor
becomes ">".  Once the cursor is ">" every iteration leaves it at ">": all
later reads of the run start at ">". -/
theorem C4_cursor_switches_once (ceKey : String) (unmarshal : Event → String → Decoded)
    (id : String) (r : ReadResult) (pre : List Poll) (name : String) (post : List Poll)
    (hid : id ≠ ">")
    (hmsgs : ∀ st ∈ r.streams, ∀ m ∈ st.Messages, m.ID ≠ ">")
    (hids : ∀ p ∈ pre, ∀ st ∈ p.result.streams, ∀ m ∈ st.Messages, m.ID ≠ ">")
    (hnone : ∀ p ∈ pre, ¬ (p.result.err = none ∧ ∃ n, p.result.streams = [⟨n, []⟩]))
    (hrunning : (start ceKey unmarshal pre).status = .running) :
    (start ceKey unmarshal []).id = "0" ∧
    (readStarts (start ceKey unmarshal (⟨false, r⟩ :: post)).actions).take 1 = ["0"] ∧
    ((iteration ceKey unmarshal id r).id = ">" ↔
      (r.err = none ∧ ∃ n, r.streams = [⟨n, []⟩])) ∧
    (start ceKey unmarshal pre).id ≠ ">" ∧
    (∀ x ∈ readStarts (start ceKey unmarshal pre).actions, x ≠ ">") ∧
    (start ceKey unmarshal (pre ++ ⟨false, ⟨[⟨name, []⟩], none⟩⟩ :: post)).id = ">" ∧
    readStarts (start ceKey unmarshal
        (pre ++ ⟨false, ⟨[⟨name, []⟩], none⟩⟩ :: post)).actions =
      readStarts (start ceKey unmarshal pre).actions ++
        (start ceKey unmarshal pre).id :: readStarts (loop ceKey unmarshal ">" post).actions ∧
    (iteration ceKey unmarshal ">" r).id = ">" ∧
    (loop ceKey unmarshal ">" post).id = ">" ∧
    (∀ x ∈ readStarts (loop ceKey unmarshal ">" post).actions, x = ">") := by
  obtain ⟨hb1, hb2⟩ := loop_backlog ceKey unmarshal pre "0" (by decide) hids hnone
  have hempty : iteration ceKey unmarshal (loop ceKey unmarshal "0" pre).id
      ⟨[⟨name, []⟩], none⟩ =
      ⟨">", [Action.xreadgroup (loop ceKey unmarshal "0" pre).id], false⟩ := by
    simp [iteration, processMessages, hb1]
  have hflip : loop ceKey unmarshal "0" (pre ++ ⟨false, ⟨[⟨name, []⟩], none⟩⟩ :: post) =
      ⟨(loop ceKey unmarshal "0" pre).actions ++
          (Action.xreadgroup (loop ceKey unmarshal "0" pre).id ::
            (loop ceKey unmarshal ">" post).actions),
        (loop ceKey unmarshal ">" post).id, (loop ceKey unmarshal ">" post).status⟩ := by
    rw [loop_append ceKey unmarshal _ pre "0" hrunning, loop_cons]
    simp [hempty]
  refine ⟨rfl, readStarts_loop_head ceKey unmarshal "0" r post,
    iteration_switch_iff ceKey unmarshal id r hid hmsgs, hb1, hb2, ?_, ?_,
    iteration_live ceKey unmarshal r, (loop_live ceKey unmarshal post).1,
    (loop_live ceKey unmarshal post).2⟩
  · unfold start
    rw [hflip]
    exact (loop_live ceKey unmarshal post).1
  · unfold start
    rw [hflip, readStarts_append]
    rfl

theorem C4_cursor_switches_once_witness :
    (start "ce" sampleUnmarshal []).id = "0" ∧
    (readStarts (start "ce" sampleUnmarshal (⟨false, okRead []⟩ ::
      [⟨false, okRead [mkMessage "7-0" "ce" (.str "b")]⟩])).actions).take 1 = ["0"] ∧
    ((iteration "ce" sampleUnmarshal "3-0" (okRead [])).id = ">" ↔
      ((okRead []).err = none ∧ ∃ n, (okRead []).streams = [⟨n, []⟩])) ∧
    (start "ce" sampleUnmarshal [⟨false, okRead [mkMessage "1-0" "ce" (.str "a")]⟩]).id ≠ ">" ∧
    (∀ x ∈ readStarts (start "ce" sampleUnmarshal
      [⟨false, okRead [mkMessage "1-0" "ce" (.str "a")]⟩]).actions, x ≠ ">") ∧
    (start "ce" sampleUnmarshal ([⟨false, okRead [mkMessage "1-0" "ce" (.str "a")]⟩] ++
      ⟨false, ⟨[⟨"events", []⟩], none⟩⟩ ::
        [⟨false, okRead [mkMessage "7-0" "ce" (.str "b")]⟩])).id = ">" ∧
    readStarts (start "ce" sampleUnmarshal
        ([⟨false, okRead [mkMessage "1-0" "ce" (.str "a")]⟩] ++
          ⟨false, ⟨[⟨"events", []⟩], none⟩⟩ ::
            [⟨false, okRead [mkMessage "7-0" "ce" (.str "b")]⟩])).actions =
      readStarts (start "ce" sampleUnmarshal
          [⟨false, okRead [mkMessage "1-0" "ce" (.str "a")]⟩]).actions ++
        (start "ce" sampleUnmarshal [⟨false, okRead [mkMessage "1-0" "ce" (.str "a")]⟩]).id ::
          readStarts (loop "ce" sampleUnmarshal ">"
            [⟨false, okRead [mkMessage "7-0" "ce" (.str "b")]⟩]).actions ∧
    (iteration "ce" sampleUnmarshal ">" (okRead [])).id = ">" ∧
    (loop "ce" sampleUnmarshal ">" [⟨false, okRead [mkMessage "7-0" "ce" (.str "b")]⟩]).id
      = ">" ∧
    (∀ x ∈ readStarts (loop "ce" sampleUnmarshal ">"
      [⟨false, okRead [mkMessage "7-0" "ce" (.str "b")]⟩]).actions, x = ">") :=
  C4_cursor_switches_once "ce" sampleUnmarshal "3-0" (okRead [])
    [⟨false, okRead [mkMessage "1-0" "ce" (.str "a")]⟩] "events"
    [⟨false, okRead [mkMessage "7-0" "ce" (.str "b")]⟩]
    (by decide) (by decide) (by decide)
    (by
      intro p hp h
      rw [List.mem_singleton.mp hp] at h
      obtain ⟨_, n, hn⟩ := h
      simp [okRead] at hn)
    (by decide)

/-- C5: for every list of valid messages (carrying position identifiers of the
stream, never the sentinel ">") read while the cursor is a backlog position,
dispatch goroutines are started for the messages in the order returned (the
i-th goroutine carries the position identifier of the i-th message), and after
each message the cursor equals that message's position identifier, which is
where the next read starts when the message is the last of its read.  In
particular, from "0", reads returning valid messages at "1", "2", "3" and then
a read returning zero messages start at "0", "1", "2", "3" and leave the cursor
at ">". -/
theorem C5_backlog_drained_in_order (ceKey : String) (unmarshal : Event → String → Decoded)
    (id name : String) (pre : List XMessage) (m : XMessage) (post : List XMessage)
    (r2 : ReadResult) (rest : List Poll)
    (hid : id ≠ ">")
    (hids : ∀ x ∈ pre ++ m :: post, x.ID ≠ ">")
    (hvalid : ∀ x ∈ pre ++ m :: post, validMessage ceKey unmarshal x) :
    (spawned (processMessages ceKey unmarshal id (pre ++ m :: post)).actions).map
        (fun ce => ce.Extension "tmbackendid") =
      (pre ++ m :: post).map (fun x => some (Value.str x.ID)) ∧
    (processMessages ceKey unmarshal id (pre ++ [m])).id = m.ID ∧
    (readStarts (loop ceKey unmarshal id
        (⟨false, ⟨[⟨name, pre ++ [m]⟩], none⟩⟩ :: ⟨false, r2⟩ :: rest)).actions).take 2 =
      [id, m.ID] ∧
    readStarts (start "ce" sampleUnmarshal
        [⟨false, okRead [mkMessage "1" "ce" (.str "a")]⟩,
         ⟨false, okRead [mkMessage "2" "ce" (.str "b")]⟩,
         ⟨false, okRead [mkMessage "3" "ce" (.str "c")]⟩,
         ⟨false, okRead []⟩]).actions = ["0", "1", "2", "3"] ∧
    (start "ce" sampleUnmarshal
        [⟨false, okRead [mkMessage "1" "ce" (.str "a")]⟩,
         ⟨false, okRead [mkMessage "2" "ce" (.str "b")]⟩,
         ⟨false, okRead [mkMessage "3" "ce" (.str "c")]⟩,
         ⟨false, okRead []⟩]).id = ">" := by
  have hback : (processMessages ceKey unmarshal id pre).id ≠ ">" :=
    processMessages_backlog ceKey unmarshal pre id hid
      (fun x hx => hids x (List.mem_append_left _ hx))
  have hpre : ∀ x ∈ pre, validMessage ceKey unmarshal x :=
    fun x hx => hvalid x (List.mem_append_left _ hx)
  have hm : validMessage ceKey unmarshal m :=
    hvalid m (List.mem_append_right _ (List.mem_cons_self _ _))
  have hlast : ∀ x ∈ pre ++ [m], validMessage ceKey unmarshal x := by
    intro x hx
    rcases List.mem_append.mp hx with h | h
    · exact hpre x h
    · rw [List.mem_singleton.mp h]; exact hm
  have hcursor : (processMessages ceKey unmarshal id (pre ++ [m])).id = m.ID := by
    obtain ⟨e, _, heid, hdec⟩ := decodeValues_valid ceKey unmarshal m hm
    rw [processMessages_append ceKey unmarshal [m] pre id
      (processMessages_valid ceKey unmarshal pre id hpre).1]
    simp only [processMessages_cons, processMessage_valid ceKey unmarshal _ m e hdec heid]
    simp [processMessages, hback]
  refine ⟨?_, hcursor, ?_, by decide, by decide⟩
  · rw [(processMessages_valid ceKey unmarshal _ id hvalid).2.1]
    exact taggedEvents_tags ceKey unmarshal _ hvalid
  · have hit : iteration ceKey unmarshal id ⟨[⟨name, pre ++ [m]⟩], none⟩ =
        ⟨(processMessages ceKey unmarshal id (pre ++ [m])).id,
          Action.xreadgroup id :: (processMessages ceKey unmarshal id (pre ++ [m])).actions,
          (processMessages ceKey unmarshal id (pre ++ [m])).panicked⟩ := by
      simp [iteration]
    have hnp : (iteration ceKey unmarshal id ⟨[⟨name, pre ++ [m]⟩], none⟩).panicked = false := by
      rw [hit]
      exact (processMessages_valid ceKey unmarshal _ id hlast).1
    rw [readStarts_loop_cons ceKey unmarshal id _ _ hnp, List.take_succ_cons,
      readStarts_loop_head, hit, hcursor]

theorem C5_backlog_drained_in_order_witness :
    (spawned (processMessages "ce" sampleUnmarshal "0"
        ([mkMessage "1" "ce" (.str "a")] ++ mkMessage "2" "ce" (.str "b") ::
          [mkMessage "3" "ce" (.str "c")])).actions).map
        (fun ce => ce.Extension "tmbackendid") =
      ([mkMessage "1" "ce" (.str "a")] ++ mkMessage "2" "ce" (.str "b") ::
          [mkMessage "3" "ce" (.str "c")]).map (fun x => some (Value.str x.ID)) ∧
    (processMessages "ce" sampleUnmarshal "0"
      ([mkMessage "1" "ce" (.str "a")] ++ [mkMessage "2" "ce" (.str "b")])).id =
      (mkMessage "2" "ce" (.str "b")).ID ∧
    (readStarts (loop "ce" sampleUnmarshal "0"
        (⟨false, ⟨[⟨"events", [mkMessage "1" "ce" (.str "a")] ++
            [mkMessage "2" "ce" (.str "b")]⟩], none⟩⟩ ::
          ⟨false, okRead []⟩ :: [])).actions).take 2 =
      ["0", (mkMessage "2" "ce" (.str "b")).ID] ∧
    readStarts (start "ce" sampleUnmarshal
        [⟨false, okRead [mkMessage "1" "ce" (.str "a")]⟩,
         ⟨false, okRead [mkMessage "2" "ce" (.str "b")]⟩,
         ⟨false, okRead [mkMessage "3" "ce" (.str "c")]⟩,
         ⟨false, okRead []⟩]).actions = ["0", "1", "2", "3"] ∧
    (start "ce" sampleUnmarshal
        [⟨false, okRead [mkMessage "1" "ce" (.str "a")]⟩,
         ⟨false, okRead [mkMessage "2" "ce" (.str "b")]⟩,
         ⟨false, okRead [mkMessage "3" "ce" (.str "c")]⟩,
         ⟨false, okRead []⟩]).id = ">" :=
  C5_backlog_drained_in_order "ce" sampleUnmarshal "0" "events"
    [mkMessage "1" "ce" (.str "a")] (mkMessage "2" "ce" (.str "b"))
    [mkMessage "3" "ce" (.str "c")] (okRead []) []
    (by decide) (by decide) (by decide)

/-- C6: a read error produces a log entry exactly when its text is neither
wait-timeout text (ending in "i/o timeout") nor the cancellation text
"context canceled": the iteration logs nothing for a benign error and exactly
one entry, of severity error, for every other error. -/
theorem C6_read_error_logged_iff_not_benign (ceKey : String)
    (unmarshal : Event → String → Decoded) (id : String) (streams : List XStream)
    (text : String) :
    (logEntries (iteration ceKey unmarshal id ⟨streams, some text⟩).actions = [] ↔
      ((∃ p : String, text = p ++ "i/o timeout") ∨ text = "context canceled")) ∧
    (logEntries (iteration ceKey unmarshal id ⟨streams, some text⟩).actions =
        [(Level.error, "Error reading CloudEvents from consumer group")] ↔
      ¬ ((∃ p : String, text = p ++ "i/o timeout") ∨ text = "context canceled")) := by
  rw [← benign_iff]
  cases h : (!HasSuffix text "i/o timeout" && text != "context canceled") <;>
    simp [iteration, h, logEntries]

/-- C7: when a poll at the top of an iteration sees the stop flag set (the loop
being still running after what it was given before), the run consists of what
was done before followed by the closing of `stoppedCh` and nothing else,
whatever further reads the environment would have offered: no read,
acknowledgement or dispatch goroutine is started, the loop has exited, and
`stoppedCh` is closed exactly once in the run. -/
theorem C7_stop_flag_ends_loop (ceKey : String) (unmarshal : Event → String → Decoded)
    (id : String) (pre : List Poll) (p : Poll) (post : List Poll)
    (hrunning : (loop ceKey unmarshal id pre).status = .running)
    (hstop : p.exitLoop = true) :
    loop ceKey unmarshal id (pre ++ p :: post) =
      ⟨(loop ceKey unmarshal id pre).actions ++ [Action.closeStopped],
        (loop ceKey unmarshal id pre).id, .stopped⟩ ∧
    (loop ceKey unmarshal id (pre ++ p :: post)).actions.count Action.closeStopped = 1 ∧
    readStarts (loop ceKey unmarshal id (pre ++ p :: post)).actions =
      readStarts (loop ceKey unmarshal id pre).actions ∧
    acks (loop ceKey unmarshal id (pre ++ p :: post)).actions =
      acks (loop ceKey unmarshal id pre).actions ∧
    spawned (loop ceKey unmarshal id (pre ++ p :: post)).actions =
      spawned (loop ceKey unmarshal id pre).actions := by
  have hrun : loop ceKey unmarshal id (pre ++ p :: post) =
      ⟨(loop ceKey unmarshal id pre).actions ++ [Action.closeStopped],
        (loop ceKey unmarshal id pre).id, .stopped⟩ := by
    rw [loop_append ceKey unmarshal (p :: post) pre id hrunning]
    simp [loop, hstop]
  have hnot := closeStopped_not_mem_running ceKey unmarshal pre id hrunning
  rw [hrun]
  refine ⟨rfl, ?_, ?_, ?_, ?_⟩
  · simp [List.count_append, List.count_eq_zero_of_not_mem hnot]
  · simp [readStarts_append, readStarts]
  · simp [acks_append, acks]
  · simp [spawned_append, spawned]

theorem C7_stop_flag_ends_loop_witness :
    loop "ce" sampleUnmarshal "0"
        ([⟨false, okRead [mkMessage "1-0" "ce" (.str "a")]⟩] ++
          ⟨true, okRead []⟩ :: [⟨false, okRead [mkMessage "2-0" "ce" (.str "b")]⟩]) =
      ⟨(loop "ce" sampleUnmarshal "0"
          [⟨false, okRead [mkMessage "1-0" "ce" (.str "a")]⟩]).actions ++ [Action.closeStopped],
        (loop "ce" sampleUnmarshal "0" [⟨false, okRead [mkMessage "1-0" "ce" (.str "a")]⟩]).id,
        .stopped⟩ ∧
    (loop "ce" sampleUnmarshal "0"
        ([⟨false, okRead [mkMessage "1-0" "ce" (.str "a")]⟩] ++
          ⟨true, okRead []⟩ :: [⟨false, okRead [mkMessage "2-0" "ce" (.str "b")]⟩])).actions.count
      Action.closeStopped = 1 ∧
    readStarts (loop "ce" sampleUnmarshal "0"
        ([⟨false, okRead [mkMessage "1-0" "ce" (.str "a")]⟩] ++
          ⟨true, okRead []⟩ :: [⟨false, okRead [mkMessage "2-0" "ce" (.str "b")]⟩])).actions =
      readStarts (loop "ce" sampleUnmarshal "0"
        [⟨false, okRead [mkMessage "1-0" "ce" (.str "a")]⟩]).actions ∧
    acks (loop "ce" sampleUnmarshal "0"
        ([⟨false, okRead [mkMessage "1-0" "ce" (.str "a")]⟩] ++
          ⟨true, okRead []⟩ :: [⟨false, okRead [mkMessage "2-0" "ce" (.str "b")]⟩])).actions =
      acks (loop "ce" sampleUnmarshal "0"
        [⟨false, okRead [mkMessage "1-0" "ce" (.str "a")]⟩]).actions ∧
    spawned (loop "ce" sampleUnmarshal "0"
        ([⟨false, okRead [mkMessage "1-0" "ce" (.str "a")]⟩] ++
          ⟨true, okRead []⟩ :: [⟨false, okRead [mkMessage "2-0" "ce" (.str "b")]⟩])).actions =
      spawned (loop "ce" sampleUnmarshal "0"
        [⟨false, okRead [mkMessage "1-0" "ce" (.str "a")]⟩]).actions :=
  C7_stop_flag_ends_loop "ce" sampleUnmarshal "0"
    [⟨false, okRead [mkMessage "1-0" "ce" (.str "a")]⟩] ⟨true, okRead []⟩
    [⟨false, okRead [mkMessage "2-0" "ce" (.str "b")]⟩] (by decide) (by decide)

/-- C8: when the group read returns an error (benign or not) or a result that
does not hold exactly one stream, the iteration performs the read and nothing
else but logging: the cursor is unchanged, nothing is acknowledged, no dispatch
goroutine is started, nothing panics, and the loop goes on with the next
iteration from the same cursor. -/
theorem C8_failed_read_is_skipped (ceKey : String) (unmarshal : Event → String → Decoded)
    (id : String) (r : ReadResult) (rest : List Poll)
    (h : r.err ≠ none ∨ r.streams.length ≠ 1) :
    (iteration ceKey unmarshal id r).id = id ∧
    acks (iteration ceKey unmarshal id r).actions = [] ∧
    spawned (iteration ceKey unmarshal id r).actions = [] ∧
    dispatched (iteration ceKey unmarshal id r).actions = [] ∧
    readStarts (iteration ceKey unmarshal id r).actions = [id] ∧
    (iteration ceKey unmarshal id r).panicked = false ∧
    loop ceKey unmarshal id (⟨false, r⟩ :: rest) =
      ⟨(iteration ceKey unmarshal id r).actions ++ (loop ceKey unmarshal id rest).actions,
       (loop ceKey unmarshal id rest).id, (loop ceKey unmarshal id rest).status⟩ := by
  obtain ⟨streams, err⟩ := r
  have key : (iteration ceKey unmarshal id ⟨streams, err⟩).id = id ∧
      acks (iteration ceKey unmarshal id ⟨streams, err⟩).actions = [] ∧
      spawned (iteration ceKey unmarshal id ⟨streams, err⟩).actions = [] ∧
      dispatched (iteration ceKey unmarshal id ⟨streams, err⟩).actions = [] ∧
      readStarts (iteration ceKey unmarshal id ⟨streams, err⟩).actions = [id] ∧
      (iteration ceKey unmarshal id ⟨streams, err⟩).panicked = false := by
    cases err with
    | some text =>
      cases hb : (!HasSuffix text "i/o timeout" && text != "context canceled") <;>
        simp [iteration, hb, acks, spawned, dispatched, readStarts]
    | none =>
      have hlen : streams.length ≠ 1 := by simpa using h
      match streams, hlen with
      | [], _ => simp [iteration, acks, spawned, dispatched, readStarts]
      | [_], hl => simp at hl
      | _ :: _ :: _, _ => simp [iteration, acks, spawned, dispatched, readStarts]
  obtain ⟨h1, h2, h3, h4, h5, h6⟩ := key
  refine ⟨h1, h2, h3, h4, h5, h6, ?_⟩
  simp [loop, h6, h1]

theorem C8_failed_read_is_skipped_witness :
    (iteration "ce" sampleUnmarshal "5-0" ⟨[], some "read tcp: i/o timeout"⟩).id = "5-0" ∧
    acks (iteration "ce" sampleUnmarshal "5-0" ⟨[], some "read tcp: i/o timeout"⟩).actions = [] ∧
    spawned (iteration "ce" sampleUnmarshal "5-0" ⟨[], some "read tcp: i/o timeout"⟩).actions
      = [] ∧
    dispatched (iteration "ce" sampleUnmarshal "5-0" ⟨[], some "read tcp: i/o timeout"⟩).actions
      = [] ∧
    readStarts (iteration "ce" sampleUnmarshal "5-0" ⟨[], some "read tcp: i/o timeout"⟩).actions
      = ["5-0"] ∧
    (iteration "ce" sampleUnmarshal "5-0" ⟨[], some "read tcp: i/o timeout"⟩).panicked = false ∧
    loop "ce" sampleUnmarshal "5-0" (⟨false, ⟨[], some "read tcp: i/o timeout"⟩⟩ :: []) =
      ⟨(iteration "ce" sampleUnmarshal "5-0" ⟨[], some "read tcp: i/o timeout"⟩).actions ++
          (loop "ce" sampleUnmarshal "5-0" []).actions,
       (loop "ce" sampleUnmarshal "5-0" []).id, (loop "ce" sampleUnmarshal "5-0" []).status⟩ :=
  C8_failed_read_is_skipped "ce" sampleUnmarshal "5-0" ⟨[], some "read tcp: i/o timeout"⟩ []
    (Or.inl (by decide))

/-- C10 as stated fails: the message at "1-0" is read while the cursor is the
backlog position "0" and its payload does not decode; it is acknowledged and
dropped, and the cursor after it is still "0", not "1-0". -/
theorem C10_counterexample_invalid_message_keeps_cursor :
    processMessage "ce" sampleUnmarshal "0" (mkMessage "1-0" "ce" (.str "bad")) =
      ⟨"0", [Action.log .error "Could not unmarshal CloudEvent from Redis",
             Action.log .warn "Removing non valid message from backend: 1-0",
             Action.ack "1-0"], false⟩ ∧
    (processMessage "ce" sampleUnmarshal "0" (mkMessage "1-0" "ce" (.str "bad"))).id ≠
      (mkMessage "1-0" "ce" (.str "bad")).ID := by
  decide

/-- C10 (amended): for a message processed while the cursor is a backlog
position (not ">"), the cursor afterwards equals the message's position
identifier when the message was handed to a dispatch goroutine, and is
unchanged when the message was acknowledged by the loop as invalid; for a
message processed in live mode the cursor remains ">". -/
theorem C10_cursor_after_message (ceKey : String) (unmarshal : Event → String → Decoded)
    (id : String) (msg : XMessage) :
    (id ≠ ">" → spawned (processMessage ceKey unmarshal id msg).actions ≠ [] →
      (processMessage ceKey unmarshal id msg).id = msg.ID) ∧
    (acks (processMessage ceKey unmarshal id msg).actions ≠ [] →
      (processMessage ceKey unmarshal id msg).id = id) ∧
    (processMessage ceKey unmarshal ">" msg).id = ">" := by
  have hlogs := decodeValues_onlyLogs ceKey unmarshal msg.Values Event.zero
  have hlive : (processMessage ceKey unmarshal ">" msg).id = ">" := by
    cases hdec : (decodeValues ceKey unmarshal msg.Values Event.zero).1 with
    | none => rw [processMessage_panic ceKey unmarshal _ msg hdec]
    | some ce =>
      by_cases hid : ce.ID = ""
      · rw [processMessage_invalid ceKey unmarshal _ msg ce hdec hid]
      · rw [processMessage_valid ceKey unmarshal _ msg ce hdec hid]
        rfl
  refine ⟨?_, ?_, hlive⟩
  · intro hback hsp
    cases hdec : (decodeValues ceKey unmarshal msg.Values Event.zero).1 with
    | none =>
      rw [processMessage_panic ceKey unmarshal _ msg hdec] at hsp
      exact absurd (spawned_onlyLogs _ hlogs) hsp
    | some ce =>
      by_cases hid : ce.ID = ""
      · rw [processMessage_invalid ceKey unmarshal _ msg ce hdec hid] at hsp
        refine absurd ?_ hsp
        rw [spawned_append, spawned_onlyLogs _ hlogs]
        rfl
      · rw [processMessage_valid ceKey unmarshal _ msg ce hdec hid]
        simp [hback]
  · intro hack
    cases hdec : (decodeValues ceKey unmarshal msg.Values Event.zero).1 with
    | none => rw [processMessage_panic ceKey unmarshal _ msg hdec]
    | some ce =>
      by_cases hid : ce.ID = ""
      · rw [processMessage_invalid ceKey unmarshal _ msg ce hdec hid]
      · rw [processMessage_valid ceKey unmarshal _ msg ce hdec hid] at hack
        refine absurd ?_ hack
        rw [acks_append, acks_onlyLogs _ hlogs]
        rfl

theorem C10_cursor_after_message_witness :
    (processMessage "ce" sampleUnmarshal "0" (mkMessage "1-0" "ce" (.str "a"))).id = "1-0" ∧
    (processMessage "ce" sampleUnmarshal "0" (mkMessage "2-0" "ce" (.str "bad"))).id = "0" ∧
    (processMessage "ce" sampleUnmarshal ">" (mkMessage "3-0" "ce" (.str "a"))).id = ">" :=
  ⟨(C10_cursor_after_message "ce" sampleUnmarshal "0" (mkMessage "1-0" "ce" (.str "a"))).1
      (by decide) (by decide),
   (C10_cursor_after_message "ce" sampleUnmarshal "0" (mkMessage "2-0" "ce" (.str "bad"))).2.1
      (by decide),
   (C10_cursor_after_message "ce" sampleUnmarshal "0" (mkMessage "3-0" "ce" (.str "a"))).2.2⟩

end Redis
